import Mathlib

/-! Verification of the embedded-fragment extraction, projection and routing layer of the
glslx-vscode language server.  The TypeScript sources are shallowly embedded: document
texts are `List Char`, character offsets are `Nat`, JS out-of-range string indexing
(`s[i]` yielding `undefined`) is modelled with `Option Char`, and the external compiler,
document store and filesystem are parameters of the embedding.

The repository contains three variants of the embedded-support module:
* `P0` — src/unnamed/part_000, the module actually imported by src/server.ts (its exports
  `ParsedDoc` and `CompiledResult {id, docUri, region, result}` match the server's imports);
  regex-based tag scanner, coordinate-preserving projection, strict-interior containment.
* `ES` — src/src/embeddedSupport.ts: alternating-backtick scanner with no tag test, a
  projection that skips the characters at offsets `start` and `end`, and the containment
  test `start > offset && end < offset`.
* `P1` — src/unnamed/part_001: backtick state machine with a lookbehind tag test, the same
  projection as `P0`, and the same containment test as `ES`.
-/

/-- The backtick delimiter character (code point 96). -/
def bq : Char := Char.ofNat 96

/-- A fragment span, `interface Region { start: number; end: number }` in every variant. -/
structure Region where
  start : Nat
  «end» : Nat
deriving DecidableEq, Repr

/-- JS `text[i]` for a character offset: `some` character in range, `none` = `undefined`. -/
def charAt (t : List Char) (i : Nat) : Option Char :=
  t.get? i

/-- Does the fixed string `s` occur in `t` starting at offset `i`? -/
def strAt (t : List Char) (i : Nat) (s : List Char) : Bool :=
  s.isPrefixOf (t.drop i)

def glslTag : List Char := ['g', 'l', 's', 'l']

def vertTag : List Char := ['v', 'e', 'r', 't']

def fragTag : List Char := ['f', 'r', 'a', 'g']

def openComment : List Char := ['/', '*']

def closeComment : List Char := ['*', '/']

/-- The position reached after the optional-space pattern ` ?` applied at offset `k`. -/
def spaceAdj (t : List Char) (k : Nat) : Nat :=
  if charAt t k = some ' ' then k + 1 else k

namespace P0

/-- Length of a match of the alternative `\/\* ?glsl ?\*\/ ?` of the part_000 tag regex at
offset `i`.  Each ` ?` is deterministic on fixed strings: when the optional position holds
a space the greedy branch is the only one that can continue (`'g'`/`'*'` never equal `' '`),
so no backtracking is observable. -/
def commentAltLen (t : List Char) (i : Nat) : Option Nat :=
  if strAt t i openComment then
    if strAt t (spaceAdj t (i + 2)) glslTag then
      if strAt t (spaceAdj t (spaceAdj t (i + 2) + 4)) closeComment then
        some (spaceAdj t (spaceAdj t (spaceAdj t (i + 2) + 4) + 2) - i)
      else none
    else none
  else none

/-- Length of a match of the part_000 tag pattern `glsl|vert|frag|\/\* ?glsl ?\*\/ ?` at
offset `i`, trying the alternatives in the pattern's order (JS alternation is ordered). -/
def matchTagLen (t : List Char) (i : Nat) : Option Nat :=
  if strAt t i glslTag then some 4
  else if strAt t i vertTag then some 4
  else if strAt t i fragTag then some 4
  else commentAltLen t i

/-- Leftmost tag match at offset `≥ i`, as `(index, length)`; fuel-driven scan of the
candidate start positions, mirroring `tagPattern.exec` with `lastIndex = i`. -/
def findTagAux (t : List Char) : Nat → Nat → Option (Nat × Nat)
  | _, 0 => none
  | i, fuel + 1 =>
    match matchTagLen t i with
    | some len => some (i, len)
    | none => findTagAux t (i + 1) fuel

/-- `tagPattern.exec` from `lastIndex = i`: candidate positions `i, i+1, …, t.length`. -/
def findTagFrom (t : List Char) (i : Nat) : Option (Nat × Nat) :=
  findTagAux t i (t.length + 1 - i)

/-- JS `documentText.indexOf(c, i)` (as an `Option`; the JS `-1` corresponds to `none`). -/
def findCharAux (t : List Char) (c : Char) : Nat → Nat → Option Nat
  | _, 0 => none
  | i, fuel + 1 =>
    match charAt t i with
    | none => none
    | some x => if x = c then some i else findCharAux t c (i + 1) fuel

def findCharFrom (t : List Char) (c : Char) (i : Nat) : Option Nat :=
  findCharAux t c i (t.length + 1 - i)

/-- One `while (match = tagPattern.exec(documentText))` iteration of part_000
`getGlslxRegions`, lines 26–41: `tickIdx = idx + len`; if the tag is immediately followed
by a backtick, `start = tickIdx + 1` and the close is `indexOf(backtick, start + 1)`
(i.e. from `idx + len + 2`); the region is pushed when `end > 0`; `lastIndex` advances to
`idx + len` in every case. -/
def scanLoop (t : List Char) : Nat → Nat → List Region
  | _, 0 => []
  | pos, fuel + 1 =>
    match findTagFrom t pos with
    | none => []
    | some (idx, len) =>
      if charAt t (idx + len) = some bq then
        match findCharFrom t bq (idx + len + 2) with
        | some e =>
          if 0 < e then ⟨idx + len + 1, e⟩ :: scanLoop t (idx + len) fuel
          else scanLoop t (idx + len) fuel
        | none => scanLoop t (idx + len) fuel
      else scanLoop t (idx + len) fuel

/-- part_000 `getGlslxRegions` (each loop iteration advances `lastIndex` by at least 4, so
`t.length + 1` iterations always suffice). -/
def getGlslxRegions (t : List Char) : List Region :=
  scanLoop t 0 (t.length + 1)

end P0

/-- One character of the masked copy: `documentText[i] === '\n' ? '\n' : ' '`
(an out-of-range read gives `undefined`, which is not `'\n'`, hence a space). -/
def maskChar (oc : Option Char) : Char :=
  match oc with
  | some c => if c = '\n' then '\n' else ' '
  | none => ' '

/-- One character of the verbatim copy: `result += documentText[i]`.  In range this appends
the character; out of range JS appends the string `"undefined"`. -/
def verbatimChunk (t : List Char) (i : Nat) : List Char :=
  match charAt t i with
  | some c => [c]
  | none => "undefined".toList

/-- A masking loop `for (; i < stop; i += 1) result += maskChar(text[i])`, started at
offset `i` and running for `n` iterations (`n = stop - i`). -/
def maskSeg (t : List Char) : Nat → Nat → List Char
  | _, 0 => []
  | i, n + 1 => maskChar (charAt t i) :: maskSeg t (i + 1) n

/-- A verbatim loop `for (; i < stop; i += 1) result += text[i]`, started at offset `i`
and running for `n` iterations. -/
def copySeg (t : List Char) : Nat → Nat → List Char
  | _, 0 => []
  | i, n + 1 => verbatimChunk t i ++ copySeg t (i + 1) n

namespace P0

/-- part_000 `getVirtualGlslxContent` (lines 48–63): three loops sharing one index `i`.
The first masks `[0, start)` and leaves `i = start`; the second copies while `i < end`,
leaving `i = max start end`; the third masks until `i = length`. -/
def getVirtualGlslxContent (t : List Char) (r : Region) : List Char :=
  maskSeg t 0 r.start
    ++ copySeg t r.start (r.«end» - r.start)
    ++ maskSeg t (max r.start r.«end») (t.length - max r.start r.«end»)

/-- part_000 `isPositionInsideRegion` (lines 65–67): `start < offset && end > offset`. -/
def isPositionInsideRegion (r : Region) (offset : Nat) : Bool :=
  decide (r.start < offset) && decide (r.«end» > offset)

end P0

namespace ES

/-- One iteration state of embeddedSupport.ts `getGlslxRegions` (lines 18–37): every
backtick toggles `isInsideTag`; a closing backtick at offset `i` pushes
`{start: startIdx, end: i}` where `startIdx` is the offset of the opening backtick
itself (`startIdx = i` is assigned at the opening backtick, not `i + 1`). -/
def scanAux (t : List Char) : Nat → Nat → Bool → Nat → List Region
  | _, _, _, 0 => []
  | i, startIdx, inside, fuel + 1 =>
    match charAt t i with
    | none => []
    | some c =>
      if c = bq then
        if inside then ⟨startIdx, i⟩ :: scanAux t (i + 1) startIdx false fuel
        else scanAux t (i + 1) i true fuel
      else scanAux t (i + 1) startIdx inside fuel

def getGlslxRegions (t : List Char) : List Region :=
  scanAux t 0 0 false t.length

/-- embeddedSupport.ts `getVirtualGlslxContent` (lines 41–55): three loops with fresh
indices; the second runs over `[start + 1, end)` and the third over `[end + 1, length)`,
so the characters at offsets `start` and `end` are emitted by no loop at all. -/
def getVirtualGlslxContent (t : List Char) (r : Region) : List Char :=
  maskSeg t 0 r.start
    ++ copySeg t (r.start + 1) (r.«end» - (r.start + 1))
    ++ maskSeg t (r.«end» + 1) (t.length - (r.«end» + 1))

/-- embeddedSupport.ts `isPositionInsideRegion` (lines 57–59):
`region.start > offset && region.end < offset`. -/
def isPositionInsideRegion (r : Region) (offset : Int) : Bool :=
  decide ((r.start : Int) > offset) && decide ((r.«end» : Int) < offset)

end ES

namespace P1

/-- JS `text.slice(k)` for a possibly negative start index: a negative `k` counts from the
end of the string, clamped at 0. -/
def jsSlice (t : List Char) (k : Int) : List Char :=
  if k < 0 then t.drop ((t.length + k).toNat) else t.drop k.toNat

/-- The anchored test `/^(glsl|vert|frag|\/\* ?glsl ?\*\/)/.test(s)`; the comment
alternative here has no trailing ` ?`. -/
def tagTestStr (s : List Char) : Bool :=
  strAt s 0 glslTag || strAt s 0 vertTag || strAt s 0 fragTag ||
    (strAt s 0 openComment && strAt s (spaceAdj s 2) glslTag &&
      strAt s (spaceAdj s (spaceAdj s 2 + 4)) closeComment)

/-- part_001's lookbehind tag test at a backtick at offset `i`:
`/^(glsl|vert|frag|\/\* ?glsl ?\*\/)/.test(documentText.slice(i - 4))`. -/
def tagTest (t : List Char) (i : Nat) : Bool :=
  tagTestStr (jsSlice t ((i : Int) - 4))

/-- part_001 `getGlslxRegions` (lines 18–39): a backtick while `isInsideTag` pushes
`{start: startIdx, end: i}` and clears the flag; otherwise `startIdx = i + 1` and the flag
becomes the result of the lookbehind tag test. -/
def scanAux (t : List Char) : Nat → Nat → Bool → Nat → List Region
  | _, _, _, 0 => []
  | i, startIdx, inside, fuel + 1 =>
    match charAt t i with
    | none => []
    | some c =>
      if c = bq then
        if inside then ⟨startIdx, i⟩ :: scanAux t (i + 1) startIdx false fuel
        else scanAux t (i + 1) (i + 1) (tagTest t i) fuel
      else scanAux t (i + 1) startIdx inside fuel

def getGlslxRegions (t : List Char) : List Region :=
  scanAux t 0 0 false t.length

/-- part_001 `isPositionInsideRegion` (lines 60–62), identical to the
embeddedSupport.ts variant: `region.start > offset && region.end < offset`. -/
def isPositionInsideRegion (r : Region) (offset : Int) : Bool :=
  decide ((r.start : Int) > offset) && decide ((r.«end» : Int) < offset)

end P1

/-- An open document as seen through the Document Store (`TextDocument`): URI, declared
language id, current text. -/
structure Doc where
  uri : String
  languageId : String
  source : List Char
deriving DecidableEq

/-- part_000 `CompiledResult`: `{id, docUri, region, result}`, with the opaque analysis
object of the external compiler as a type parameter `α`. -/
structure CompiledResult (α : Type) where
  id : String
  docUri : String
  region : Region
  result : α
deriving DecidableEq

/-- server.ts line 100: a document whose `languageId` is `glslx` yields the single
whole-document span, any other document is scanned for tagged literals. -/
def docRegions (d : Doc) : List Region :=
  if d.languageId = "glslx" then [⟨0, d.source.length⟩] else P0.getGlslxRegions d.source

/-- server.ts lines 131–136: `regions.map((region, i) => …)` compiling each region's
virtual content in order.  The external compiler is a parameter; `Except.error` models a
thrown exception, which aborts the surrounding `map` before any element is assigned. -/
def compileRegions {ε α : Type} (compile : String → List Char → Except ε α)
    (uri : String) (src : List Char) : List Region → Nat → Except ε (List (CompiledResult α))
  | [], _ => .ok []
  | r :: rs, i =>
    match compile (uri ++ "-region-" ++ toString i) (P0.getVirtualGlslxContent src r) with
    | .error e => .error e
    | .ok res =>
      match compileRegions compile uri src rs (i + 1) with
      | .error e => .error e
      | .ok tail =>
        .ok ({ id := uri ++ "-region-" ++ toString i, docUri := uri, region := r,
               result := res } :: tail)

def compileDoc {ε α : Type} (compile : String → List Char → Except ε α) (d : Doc) :
    Except ε (List (CompiledResult α)) :=
  compileRegions compile d.uri d.source (docRegions d) 0

/-- The fragments a document contributes when its compilation succeeds. -/
def okFrags {ε α : Type} (compile : String → List Char → Except ε α) (d : Doc) :
    List (CompiledResult α) :=
  match compileDoc compile d with
  | .ok frs => frs
  | .error _ => []

/-- Outcome of one `buildOnce` call: the `results` record (in document order), whether
`sendDiagnostics` was reached, and the exception caught by `reportErrors`, if any
(`connection.window.showErrorMessage` notification). -/
structure BuildOut (ε α : Type) where
  results : List (String × List (CompiledResult α))
  diagnosticsSent : Bool
  errorNotified : Option ε
deriving DecidableEq

/-- server.ts lines 128–137 inside `reportErrors`: documents are compiled one at a time
and assigned into the mutable `results` object; a thrown exception aborts the loop but the
assignments already made survive (JS object mutation), `sendDiagnostics` is skipped, and
the exception is caught and surfaced by `reportErrors` (lines 21–29). -/
def buildGo {ε α : Type} (compile : String → List Char → Except ε α) :
    List Doc → List (String × List (CompiledResult α)) → BuildOut ε α
  | [], acc => { results := acc.reverse, diagnosticsSent := true, errorNotified := none }
  | d :: ds, acc =>
    match compileDoc compile d with
    | .error e =>
        { results := acc.reverse, diagnosticsSent := false, errorNotified := some e }
    | .ok frs => buildGo compile ds ((d.uri, frs) :: acc)

/-- server.ts `buildOnce` (lines 90–142): `let results = {}; reportErrors(() => …);
return results`. -/
def buildOnce {ε α : Type} (compile : String → List Char → Except ε α) (docs : List Doc) :
    BuildOut ε α :=
  buildGo compile docs []

/-- The state of the mutable `buildResults` closure in server.ts (line 16 and
lines 144–152): `initial` is the module-level `() => ({})`; `pending` is the thunk
installed by `buildLater` that will call `buildOnce` when first invoked; `cached` is the
memoized `() => result` installed after that call. -/
inductive BuildCache (α : Type) where
  | initial
  | pending
  | cached (results : List (String × List (CompiledResult α)))
deriving DecidableEq

/-- Observation of one `buildResults()` call: the record returned to the caller, the
closure state afterwards, and whether the call ran the scan/project/compile pass. -/
structure AccessOut (α : Type) where
  value : List (String × List (CompiledResult α))
  state : BuildCache α
  ranBuild : Bool
deriving DecidableEq

/-- One synchronous `buildResults()` call (the accessor used by `getResult` at line 158
and by the timer at line 151), with the currently open documents `docs` read at call
time. -/
def accessResult {ε α : Type} (compile : String → List Char → Except ε α)
    (docs : List Doc) : BuildCache α → AccessOut α
  | .initial => { value := [], state := .initial, ranBuild := false }
  | .pending =>
      { value := (buildOnce compile docs).results,
        state := .cached (buildOnce compile docs).results, ranBuild := true }
  | .cached rs => { value := rs, state := .cached rs, ranBuild := false }

/-- server.ts `buildLater` (lines 144–152): reinstall the rebuild thunk and restart the
single debounce timer, from any prior state. -/
def buildLater {α : Type} (_ : BuildCache α) : BuildCache α :=
  .pending

/-- server.ts `getResult` (line 159): `result?.find(x => isPositionInsideRegion(x.region,
offset))` over the cached fragments of one document. -/
def locate {α : Type} (frags : List (CompiledResult α)) (offset : Nat) :
    Option (CompiledResult α) :=
  frags.find? (fun x => P0.isPositionInsideRegion x.region offset)

/-- server.ts lines 105–106: `uriToPath`, `path.dirname`, `path.resolve` (one- and
two-argument forms) are platform collaborators, taken as parameters. -/
def resolveAbsolutePath (uriToPath : String → Option String)
    (dirname resolveOne : String → String) (resolveIn : String → String → String)
    (includeText relativeURI : String) : String :=
  match uriToPath relativeURI with
  | some relativePath => resolveIn (dirname (resolveOne relativePath)) includeText
  | none => resolveOne includeText

/-- server.ts `fileAccess` (lines 104–126).  `docs` is the in-memory record of parsed
open documents keyed by URI; `readDisk` models `fs.readFileSync` (`none` = it threw).
The second component records whether the filesystem was touched. -/
def fileAccess (uriToPath : String → Option String)
    (dirname resolveOne : String → String) (resolveIn : String → String → String)
    (pathToURI : String → String) (docs : List Doc)
    (readDisk : String → Option (List Char)) (includeText relativeURI : String) :
    Option (String × List Char) × Bool :=
  let absolutePath :=
    resolveAbsolutePath uriToPath dirname resolveOne resolveIn includeText relativeURI
  let absoluteURI := pathToURI absolutePath
  match docs.find? (fun d => d.uri = absoluteURI) with
  | some d => (some (absoluteURI, d.source), false)
  | none =>
    match readDisk absolutePath with
    | some contents => (some (absoluteURI, contents), true)
    | none => (none, true)

/-- Concrete documents and compilers used by closed counterexamples and witnesses. -/
def docA : Doc :=
  { uri := "a", languageId := "javascript", source := "glsl`x`".toList }

def docB : Doc :=
  { uri := "b", languageId := "javascript", source := "glsl`y`".toList }

/-- A compiler collaborator that throws exactly on document `b`'s only fragment. -/
def compileBad : String → List Char → Except Unit Unit :=
  fun n _ => if n = "b-region-0" then .error () else .ok ()

/-- A compiler collaborator that never throws. -/
def compileOk : String → List Char → Except Unit Unit :=
  fun _ _ => .ok ()

example : P0.getGlslxRegions "glsl`void main(){}`".toList = [⟨5, 18⟩] := by decide

example : P0.getGlslxRegions "glsl void main(){}".toList = [] := by decide

example : P0.getGlslxRegions "glsl``".toList = [] := by decide

example : P0.getGlslxRegions "".toList = [] := by decide

example : P0.getGlslxRegions "/* glsl */ `x` vert`y`".toList = [⟨12, 13⟩, ⟨20, 21⟩] := by
  decide

example : ES.getGlslxRegions "glsl`void main(){}`".toList = [⟨4, 18⟩] := by decide

example : ES.getGlslxRegions "glsl``".toList = [⟨4, 5⟩] := by decide

example : P1.getGlslxRegions "glsl``".toList = [⟨5, 5⟩] := by decide

example : P1.getGlslxRegions "glsl`x`".toList = [⟨5, 6⟩] := by decide

example :
    P0.getVirtualGlslxContent "ab\ncd".toList ⟨3, 5⟩ = [' ', ' ', '\n', 'c', 'd'] := by
  decide

example : ES.getVirtualGlslxContent ['a', 'b'] ⟨0, 2⟩ = ['b'] := by decide

example : P0.getVirtualGlslxContent [] ⟨1, 1⟩ = [' '] := by decide

example :
    buildOnce compileBad [docA, docB] =
      { results := [("a", [⟨"a-region-0", "a", ⟨5, 6⟩, ()⟩])], diagnosticsSent := false,
        errorNotified := some () } := by
  decide

example :
    buildOnce compileOk [docA, docB] =
      { results := [("a", [⟨"a-region-0", "a", ⟨5, 6⟩, ()⟩]),
                    ("b", [⟨"b-region-0", "b", ⟨5, 6⟩, ()⟩])],
        diagnosticsSent := true, errorNotified := none } := by
  decide

example : (accessResult compileOk [docA] (buildLater BuildCache.initial)).ranBuild = true := by
  decide

lemma maskSeg_length (t : List Char) (n : Nat) : ∀ i, (maskSeg t i n).length = n := by
  induction n with
  | zero => intro i; rfl
  | succ n ih => intro i; simp [maskSeg, ih (i + 1)]

lemma copySeg_length (t : List Char) (n : Nat) :
    ∀ i, i + n ≤ t.length → (copySeg t i n).length = n := by
  induction n with
  | zero => intro i _; rfl
  | succ n ih =>
    intro i h
    cases hc : charAt t i with
    | none =>
      have := List.get?_eq_none.mp (by simpa [charAt] using hc)
      omega
    | some c => simp [copySeg, verbatimChunk, hc, ih (i + 1) (by omega)]

lemma maskSeg_get (t : List Char) (n : Nat) :
    ∀ i j, (maskSeg t i n).get? j =
      if j < n then some (maskChar (charAt t (i + j))) else none := by
  induction n with
  | zero => intro i j; simp [maskSeg]
  | succ n ih =>
    intro i j
    cases j with
    | zero => simp [maskSeg]
    | succ j =>
      simp only [maskSeg, List.get?_cons_succ]
      rw [ih (i + 1) j]
      by_cases h : j < n
      · rw [if_pos h, if_pos (by omega), show i + 1 + j = i + (j + 1) from by omega]
      · rw [if_neg h, if_neg (by omega)]

lemma copySeg_get (t : List Char) (n : Nat) :
    ∀ i j, i + n ≤ t.length →
      (copySeg t i n).get? j = if j < n then charAt t (i + j) else none := by
  induction n with
  | zero => intro i j _; simp [copySeg]
  | succ n ih =>
    intro i j h
    cases hc : charAt t i with
    | none =>
      have := List.get?_eq_none.mp (by simpa [charAt] using hc)
      omega
    | some c =>
      cases j with
      | zero => simp [copySeg, verbatimChunk, hc]
      | succ j =>
        simp only [copySeg, verbatimChunk, hc, List.singleton_append, List.get?_cons_succ]
        rw [ih (i + 1) j (by omega)]
        by_cases hj : j < n
        · rw [if_pos hj, if_pos (by omega), show i + 1 + j = i + (j + 1) from by omega]
        · rw [if_neg hj, if_neg (by omega)]

/-- C2 (amended): the part_000 projection preserves length for every span whose two
offsets lie within the text. -/
theorem c2_amended (t : List Char) (r : Region) (hs : r.start ≤ t.length)
    (he : r.«end» ≤ t.length) :
    (P0.getVirtualGlslxContent t r).length = t.length := by
  have h1 := maskSeg_length t r.start 0
  have h2 := copySeg_length t (r.«end» - r.start) r.start (by omega)
  have h3 := maskSeg_length t (t.length - max r.start r.«end») (max r.start r.«end»)
  simp only [P0.getVirtualGlslxContent, List.length_append, h1, h2, h3]
  omega

/-- C2 witness: a concrete valid span. -/
theorem c2_witness :
    (P0.getVirtualGlslxContent ['a', 'b', 'c'] ⟨1, 2⟩).length =
      (['a', 'b', 'c'] : List Char).length :=
  c2_amended ['a', 'b', 'c'] ⟨1, 2⟩ (by decide) (by decide)

/-- C2 counterexample: the embeddedSupport.ts variant of the projection, also cited by
the claim, maps the 2-character text `ab` and the span `⟨0, 2⟩` (which even satisfies the
strict data-model invariant `0 ≤ start < end ≤ length`) to the 1-character string `b`. -/
theorem c2_counterexample :
    (ES.getVirtualGlslxContent ['a', 'b'] ⟨0, 2⟩).length ≠
      (['a', 'b'] : List Char).length := by
  decide

/-- C3 (amended): character-exact description of the part_000 projection for every span
whose offsets lie within the text: inside `[start, end)` the original character, outside
a space except that line breaks are copied through. -/
theorem c3_amended (t : List Char) (r : Region) (i : Nat) (hs : r.start ≤ t.length)
    (he : r.«end» ≤ t.length) :
    (P0.getVirtualGlslxContent t r).get? i =
      if r.start ≤ i ∧ i < r.«end» then charAt t i
      else (charAt t i).map (fun c => if c = '\n' then '\n' else ' ') := by
  have lA : (maskSeg t 0 r.start).length = r.start := maskSeg_length t r.start 0
  have lB : (copySeg t r.start (r.«end» - r.start)).length = r.«end» - r.start :=
    copySeg_length t (r.«end» - r.start) r.start (by omega)
  unfold P0.getVirtualGlslxContent
  rw [List.append_assoc]
  by_cases h1 : i < r.start
  · rw [List.get?_append (by rw [lA]; exact h1), maskSeg_get]
    rw [if_pos h1, if_neg (by omega)]
    cases hc : charAt t i with
    | none =>
      have := List.get?_eq_none.mp (by simpa [charAt] using hc)
      omega
    | some c => simp [show (0 : Nat) + i = i from by omega, hc, maskChar]
  · rw [List.get?_append_right (by rw [lA]; omega)]
    rw [lA]
    by_cases h2 : i - r.start < r.«end» - r.start
    · rw [List.get?_append (by rw [lB]; exact h2), copySeg_get _ _ _ _ (by omega)]
      rw [if_pos h2, if_pos (by omega), show r.start + (i - r.start) = i from by omega]
    · rw [List.get?_append_right (by rw [lB]; omega)]
      rw [lB, maskSeg_get]
      rw [if_neg (show ¬(r.start ≤ i ∧ i < r.«end») from by omega)]
      by_cases h3 : i < t.length
      · rw [if_pos
            (show i - r.start - (r.«end» - r.start) < t.length - max r.start r.«end» from
              by omega),
          show max r.start r.«end» + (i - r.start - (r.«end» - r.start)) = i from by omega]
        cases hc : charAt t i with
        | none =>
          have := List.get?_eq_none.mp (by simpa [charAt] using hc)
          omega
        | some c => simp [hc, maskChar]
      · rw [if_neg
            (show ¬(i - r.start - (r.«end» - r.start) < t.length - max r.start r.«end»)
              from by omega)]
        have hnone : charAt t i = none := by
          simp only [charAt, List.get?_eq_none]
          omega
        simp [hnone]

/-- C3 witness: a concrete valid span and offset, evaluated. -/
theorem c3_witness :
    (P0.getVirtualGlslxContent ['a', 'b'] ⟨1, 2⟩).get? 0 = some ' ' :=
  (c3_amended ['a', 'b'] ⟨1, 2⟩ 0 (by decide) (by decide)).trans (by decide)

/-- C3 counterexample: in the embeddedSupport.ts variant of the projection, also cited by
the claim, the offset 0 lies in `[start, end) = [0, 2)` of the span yet the projected
character differs from the original (`b` vs `a`). -/
theorem c3_counterexample :
    (ES.getVirtualGlslxContent ['a', 'b'] ⟨0, 2⟩).get? 0 ≠
      (['a', 'b'] : List Char).get? 0 := by
  decide

/-- C9: the containment test `start > offset && end < offset` of embeddedSupport.ts and
part_001 is unsatisfiable for any region with `start ≤ end` (it would need
`offset < start ≤ end < offset`), so `find?`-based position routing over well-formed
regions returns `none` at every offset. -/
theorem c9_unsatisfiable (r : Region) (rs : List Region) (offset : Int)
    (h : r.start ≤ r.«end») (hall : ∀ x ∈ rs, x.start ≤ x.«end») :
    ES.isPositionInsideRegion r offset = false ∧
    P1.isPositionInsideRegion r offset = false ∧
    rs.find? (fun x => ES.isPositionInsideRegion x offset) = none ∧
    rs.find? (fun x => P1.isPositionInsideRegion x offset) = none := by
  have key : ∀ x : Region, x.start ≤ x.«end» →
      ES.isPositionInsideRegion x offset = false ∧
      P1.isPositionInsideRegion x offset = false := by
    intro x hx
    constructor
    · simp only [ES.isPositionInsideRegion, Bool.and_eq_false_iff, decide_eq_false_iff_not]
      omega
    · simp only [P1.isPositionInsideRegion, Bool.and_eq_false_iff, decide_eq_false_iff_not]
      omega
  refine ⟨(key r h).1, (key r h).2, ?_, ?_⟩
  · exact List.find?_eq_none.mpr (fun x hx => by simp [(key x (hall x hx)).1])
  · exact List.find?_eq_none.mpr (fun x hx => by simp [(key x (hall x hx)).2])

/-- C9 witness: a concrete well-formed region and region list at a concrete offset. -/
theorem c9_witness :
    ES.isPositionInsideRegion ⟨2, 5⟩ 3 = false ∧
    P1.isPositionInsideRegion ⟨2, 5⟩ 3 = false ∧
    [(⟨0, 3⟩ : Region), ⟨4, 7⟩].find? (fun x => ES.isPositionInsideRegion x 3) = none ∧
    [(⟨0, 3⟩ : Region), ⟨4, 7⟩].find? (fun x => P1.isPositionInsideRegion x 3) = none :=
  c9_unsatisfiable ⟨2, 5⟩ [⟨0, 3⟩, ⟨4, 7⟩] 3 (by decide) (by decide)

/-- C8: the fragment resolver prefers an open document (returning its full source and
never touching the filesystem); it falls back to a disk read only when no open document
matches, and it maps a failing disk read (the `catch` branch) to `none` rather than
propagating the exception. -/
theorem c8_fileAccess (uriToPath : String → Option String)
    (dirname resolveOne : String → String) (resolveIn : String → String → String)
    (pathToURI : String → String) (docs : List Doc)
    (readDisk : String → Option (List Char)) (includeText relativeURI : String) :
    (∀ d : Doc,
      docs.find? (fun x => x.uri =
        pathToURI (resolveAbsolutePath uriToPath dirname resolveOne resolveIn
          includeText relativeURI)) = some d →
      fileAccess uriToPath dirname resolveOne resolveIn pathToURI docs readDisk
          includeText relativeURI =
        (some (pathToURI (resolveAbsolutePath uriToPath dirname resolveOne resolveIn
          includeText relativeURI), d.source), false)) ∧
    (docs.find? (fun x => x.uri =
        pathToURI (resolveAbsolutePath uriToPath dirname resolveOne resolveIn
          includeText relativeURI)) = none →
      fileAccess uriToPath dirname resolveOne resolveIn pathToURI docs readDisk
          includeText relativeURI =
        ((readDisk (resolveAbsolutePath uriToPath dirname resolveOne resolveIn
            includeText relativeURI)).map
          (fun c => (pathToURI (resolveAbsolutePath uriToPath dirname resolveOne resolveIn
            includeText relativeURI), c)), true)) := by
  constructor
  · intro d hfound
    simp only [fileAccess, hfound]
  · intro hnone
    simp only [fileAccess, hnone]
    cases readDisk (resolveAbsolutePath uriToPath dirname resolveOne resolveIn
        includeText relativeURI) with
    | none => rfl
    | some c => rfl

/-- C8 witness: concrete collaborators; an open-document hit without a disk touch, and a
failed disk read yielding `none`. -/
theorem c8_witness :
    fileAccess (fun _ => none) id id (fun a _ => a) id [docA] (fun _ => none) "a" "x" =
      (some ("a", docA.source), false) ∧
    fileAccess (fun _ => none) id id (fun a _ => a) id [] (fun _ => none) "a" "x" =
      (none, true) := by
  constructor
  · exact (c8_fileAccess (fun _ => none) id id (fun a _ => a) id [docA] (fun _ => none)
      "a" "x").1 docA (by decide)
  · have h := (c8_fileAccess (fun _ => none) id id (fun a _ => a) id [] (fun _ => none)
      "a" "x").2 (by decide)
    simpa using h

/-- C6 (amended): the synchronous accessor never waits for the timer, but it does trigger
the rebuild itself.  Before the first change notification it returns the empty record
without building; in the pending state (after `buildLater`, before the timer fired) the
first call runs one scan/project/compile pass, returns its fresh result and memoizes it;
in the memoized state it returns the cached record without building, so a second call
after a pending-state call never rebuilds. -/
theorem c6_amended {ε α : Type} (compile : String → List Char → Except ε α)
    (docs docs2 : List Doc) (rs : List (String × List (CompiledResult α))) :
    accessResult compile docs (BuildCache.initial) =
      { value := [], state := .initial, ranBuild := false } ∧
    accessResult compile docs (buildLater (BuildCache.initial (α := α))) =
      { value := (buildOnce compile docs).results,
        state := .cached (buildOnce compile docs).results, ranBuild := true } ∧
    accessResult compile docs (.cached rs) =
      { value := rs, state := .cached rs, ranBuild := false } ∧
    (accessResult compile docs2
        (accessResult compile docs (buildLater .initial)).state).ranBuild = false :=
  ⟨rfl, rfl, rfl, rfl⟩

/-- C6 counterexample: with one open document and a compiler that succeeds, a
`buildResults()` call arriving after a change notification (`buildLater`) and before the
debounce timer fires runs the scan/project/compile pass itself (`ranBuild = true`) and
returns the freshly built non-empty record instead of the previously cached or empty
one. -/
theorem c6_counterexample :
    (accessResult compileOk [docA] (buildLater BuildCache.initial)).ranBuild = true ∧
    (accessResult compileOk [docA] (buildLater BuildCache.initial)).value ≠ [] := by
  constructor
  · decide
  · decide

/-- C10: on `glsl` followed by two adjacent backticks and no later backtick (also for the
`vert` and `frag` tags), the part_000 scanner reports no span: the closing-delimiter
search `indexOf(backtick, start + 1)` starts one past the span start 5 and therefore
misses the closing backtick located exactly at offset 5, so the empty fragment yields no
(empty) span. -/
theorem c10_emptyTaggedLiteral :
    P0.getGlslxRegions "glsl``".toList = [] ∧
    P0.getGlslxRegions "vert``".toList = [] ∧
    P0.getGlslxRegions "frag``".toList = [] ∧
    charAt "glsl``".toList 5 = some bq ∧
    P0.findCharFrom "glsl``".toList bq 6 = none := by
  refine ⟨by decide, by decide, by decide, by decide, by decide⟩

/-- C4 (amended): the part_000 scanner realizes both spec scenarios: the tagged literal
``glsl`void main(){}` `` yields exactly the span `⟨5, 18⟩`, which covers precisely the
13-character substring `void main(){}` beginning just after the opening backtick; and
`glsl void main(){}` (tag not immediately followed by the delimiter) yields no span. -/
theorem c4_amended :
    P0.getGlslxRegions "glsl`void main(){}`".toList = [⟨5, 18⟩] ∧
    (("glsl`void main(){}`".toList.drop 5).take 13 = "void main(){}".toList) ∧
    P0.getGlslxRegions "glsl void main(){}".toList = [] := by
  refine ⟨by decide, by decide, by decide⟩

/-- C4 counterexample: the embeddedSupport.ts scanner variant, also cited by the claim,
returns the span `⟨4, 18⟩` on the first scenario: its span begins at the opening backtick
itself (offset 4 holds the backtick), not just after it, so the span does not cover
precisely `void main(){}`. -/
theorem c4_counterexample :
    ES.getGlslxRegions "glsl`void main(){}`".toList = [⟨4, 18⟩] ∧
    charAt "glsl`void main(){}`".toList 4 = some bq ∧
    (("glsl`void main(){}`".toList.drop 4).take 14 ≠ "void main(){}".toList) := by
  refine ⟨by decide, by decide, by decide⟩

lemma pairwise_mem_rel {β : Type} {R : β → β → Prop} :
    ∀ {l : List β}, l.Pairwise R → ∀ {x y : β}, x ∈ l → y ∈ l → x = y ∨ R x y ∨ R y x := by
  intro l hl
  induction hl with
  | nil => intro x y hx _; cases hx
  | cons hhead _htail ih =>
    intro x y hx hy
    rcases List.mem_cons.mp hx with rfl | hx2
    · rcases List.mem_cons.mp hy with rfl | hy2
      · exact Or.inl rfl
      · exact Or.inr (Or.inl (hhead y hy2))
    · rcases List.mem_cons.mp hy with rfl | hy2
      · exact Or.inr (Or.inr (hhead x hx2))
      · exact ih hx2 hy2

/-- `getResult`'s `find?` returns the first fragment strictly containing the offset; when
the fragments are non-overlapping in list order and the offset is strictly inside `f`'s
region, that first fragment is `f` itself. -/
lemma locate_mem_first {α : Type} (off : Nat) :
    ∀ (l : List (CompiledResult α)) (f : CompiledResult α), f ∈ l →
      l.Pairwise (fun a b => a.region.«end» ≤ b.region.start) →
      f.region.start < off → off < f.region.«end» →
      locate l off = some f := by
  intro l
  induction l with
  | nil => intro f h; cases h
  | cons g rest ih =>
    intro f hmem hpw h1 h2
    rcases List.mem_cons.mp hmem with rfl | hmem2
    · unfold locate
      rw [List.find?_cons_of_pos]
      simp only [P0.isPositionInsideRegion, Bool.and_eq_true, decide_eq_true_eq]
      exact ⟨h1, h2⟩
    · have hgf : g.region.«end» ≤ f.region.start := (List.pairwise_cons.mp hpw).1 f hmem2
      unfold locate
      rw [List.find?_cons_of_neg]
      · exact ih f hmem2 (List.pairwise_cons.mp hpw).2 h1 h2
      · simp only [P0.isPositionInsideRegion, Bool.and_eq_true, decide_eq_true_eq, not_and]
        intro _
        omega

/-- C1: strict interior containment in position routing.  For every cached fragment `f`
of a well-formed, non-overlapping fragment list, locating the offset exactly at its span's
`start` or exactly at its `end` returns `none`, and when `end > start + 1` locating
`start + 1` returns exactly the fragment owning the span. -/
theorem c1_strictInterior {α : Type} (frags : List (CompiledResult α))
    (f : CompiledResult α) (hmem : f ∈ frags)
    (hwf : ∀ g ∈ frags, g.region.start ≤ g.region.«end»)
    (hpw : frags.Pairwise (fun a b => a.region.«end» ≤ b.region.start)) :
    locate frags f.region.start = none ∧
    locate frags f.region.«end» = none ∧
    (f.region.start + 1 < f.region.«end» →
      locate frags (f.region.start + 1) = some f) := by
  have hwff := hwf f hmem
  refine ⟨?_, ?_, ?_⟩
  · apply List.find?_eq_none.mpr
    intro x hx
    have hwfx := hwf x hx
    simp only [P0.isPositionInsideRegion, Bool.and_eq_true, decide_eq_true_eq, not_and]
    rcases pairwise_mem_rel hpw hx hmem with rfl | hrel | hrel
    · intro h; omega
    · intro h; omega
    · intro h; omega
  · apply List.find?_eq_none.mpr
    intro x hx
    have hwfx := hwf x hx
    simp only [P0.isPositionInsideRegion, Bool.and_eq_true, decide_eq_true_eq, not_and]
    rcases pairwise_mem_rel hpw hx hmem with rfl | hrel | hrel
    · intro h; omega
    · intro h; omega
    · intro h; omega
  · intro hlt
    exact locate_mem_first (f.region.start + 1) frags f hmem hpw (by omega) hlt

/-- Concrete fragment list for the C1 witness. -/
def fragsW : List (CompiledResult Unit) :=
  [⟨"u-region-0", "u", ⟨1, 4⟩, ()⟩, ⟨"u-region-1", "u", ⟨5, 9⟩, ()⟩]

/-- C1 witness: the second fragment's span is `⟨5, 9⟩`; locating 5 and 9 gives `none`,
locating 6 gives that fragment. -/
theorem c1_witness :
    locate fragsW 5 = none ∧ locate fragsW 9 = none ∧
    locate fragsW 6 = some ⟨"u-region-1", "u", ⟨5, 9⟩, ()⟩ := by
  have h := c1_strictInterior fragsW ⟨"u-region-1", "u", ⟨5, 9⟩, ()⟩
    (by decide) (by decide) (by decide)
  exact ⟨h.1, h.2.1, h.2.2 (by decide)⟩

/-- On a document-by-document rebuild, a compiler exception at document `d` leaves the
entries already assigned for the documents before `d` in the mutable `results` object,
skips `sendDiagnostics`, and is surfaced by `reportErrors`. -/
lemma buildGo_error {ε α : Type} (compile : String → List Char → Except ε α) (d : Doc)
    (e : ε) (hd : compileDoc compile d = .error e) :
    ∀ (pre post : List Doc) (acc : List (String × List (CompiledResult α))),
      (∀ x ∈ pre, ∃ frs, compileDoc compile x = .ok frs) →
      buildGo compile (pre ++ d :: post) acc =
        { results := acc.reverse ++ pre.map (fun x => (x.uri, okFrags compile x)),
          diagnosticsSent := false, errorNotified := some e } := by
  intro pre
  induction pre with
  | nil =>
    intro post acc _
    simp [buildGo, hd]
  | cons p ps ih =>
    intro post acc hpre
    obtain ⟨frs, hfrs⟩ := hpre p (List.mem_cons_self p ps)
    simp only [List.cons_append, buildGo, hfrs, List.append_eq]
    rw [ih post ((p.uri, frs) :: acc) (fun x hx => hpre x (List.mem_cons_of_mem _ hx))]
    simp [okFrags, hfrs, List.reverse_cons, List.append_assoc]

/-- C7 (amended): a compiler exception during a rebuild is caught at the rebuild boundary
and surfaced as a notification; `sendDiagnostics` is skipped for that pass (previous
diagnostics stay in place rather than being cleared), and the returned record keeps the
fragments of the documents fully compiled before the failing one, while the failing and
all later documents contribute none. -/
theorem c7_amended {ε α : Type} (compile : String → List Char → Except ε α)
    (pre post : List Doc) (d : Doc) (e : ε)
    (hpre : ∀ x ∈ pre, ∃ frs, compileDoc compile x = .ok frs)
    (hd : compileDoc compile d = .error e) :
    buildOnce compile (pre ++ d :: post) =
      { results := pre.map (fun x => (x.uri, okFrags compile x)),
        diagnosticsSent := false, errorNotified := some e } := by
  unfold buildOnce
  rw [buildGo_error compile d e hd pre post [] hpre]
  simp

/-- C7 witness: with two open documents and a compiler that throws on the second, the
rebuild returns document `a`'s fragments, skips diagnostics and notifies the error. -/
theorem c7_witness :
    buildOnce compileBad [docA, docB] =
      { results := [("a", [⟨"a-region-0", "a", ⟨5, 6⟩, ()⟩])], diagnosticsSent := false,
        errorNotified := some () } := by
  have h := c7_amended compileBad [docA] [] docB ()
    (by
      intro x hx
      simp only [List.mem_singleton] at hx
      subst hx
      exact ⟨[⟨"a-region-0", "a", ⟨5, 6⟩, ()⟩], rfl⟩)
    rfl
  simpa using h

/-- C7 counterexample: in the same scenario the pass is not atomic: the returned build
result does contain compiled fragments (for document `a`), and `sendDiagnostics` never
runs in that pass, so diagnostics are not cleared — contradicting the claim that a
throwing pass produces no results and clears diagnostics. -/
theorem c7_counterexample :
    (buildOnce compileBad [docA, docB]).results ≠ [] ∧
    ((buildOnce compileBad [docA, docB]).results.map (fun p => (p.1, p.2.length))) =
      [("a", 1)] ∧
    (buildOnce compileBad [docA, docB]).diagnosticsSent = false ∧
    (buildOnce compileBad [docA, docB]).errorNotified = some () := by
  refine ⟨by decide, by decide, by decide, by decide⟩

lemma spaceAdj_ge (t : List Char) (k : Nat) : k ≤ spaceAdj t k := by
  unfold spaceAdj
  split <;> omega

lemma commentAltLen_ge (t : List Char) (i len : Nat)
    (h : P0.commentAltLen t i = some len) : 8 ≤ len := by
  unfold P0.commentAltLen at h
  split at h
  · split at h
    · split at h
      · have h1 := spaceAdj_ge t (i + 2)
        have h2 := spaceAdj_ge t (spaceAdj t (i + 2) + 4)
        have h3 := spaceAdj_ge t (spaceAdj t (spaceAdj t (i + 2) + 4) + 2)
        simp only [Option.some.injEq] at h
        omega
      · cases h
    · cases h
  · cases h

lemma matchTagLen_ge (t : List Char) (i len : Nat)
    (h : P0.matchTagLen t i = some len) : 4 ≤ len := by
  unfold P0.matchTagLen at h
  split at h
  · simp only [Option.some.injEq] at h; omega
  · split at h
    · simp only [Option.some.injEq] at h; omega
    · split at h
      · simp only [Option.some.injEq] at h; omega
      · have := commentAltLen_ge t i len h
        omega

lemma findTagAux_spec (t : List Char) :
    ∀ (fuel i idx len : Nat), P0.findTagAux t i fuel = some (idx, len) →
      i ≤ idx ∧ P0.matchTagLen t idx = some len := by
  intro fuel
  induction fuel with
  | zero => intro i idx len h; cases h
  | succ n ih =>
    intro i idx len h
    unfold P0.findTagAux at h
    split at h
    · rename_i l heq
      simp only [Option.some.injEq, Prod.mk.injEq] at h
      obtain ⟨rfl, rfl⟩ := h
      exact ⟨Nat.le_refl _, heq⟩
    · have hrec := ih (i + 1) idx len h
      exact ⟨by omega, hrec.2⟩

lemma findTagFrom_spec (t : List Char) (i idx len : Nat)
    (h : P0.findTagFrom t i = some (idx, len)) :
    i ≤ idx ∧ P0.matchTagLen t idx = some len :=
  findTagAux_spec t (t.length + 1 - i) i idx len h

lemma findCharAux_spec (t : List Char) (c : Char) :
    ∀ (fuel i j : Nat), P0.findCharAux t c i fuel = some j →
      i ≤ j ∧ charAt t j = some c ∧ ∀ m, i ≤ m → m < j → charAt t m ≠ some c := by
  intro fuel
  induction fuel with
  | zero => intro i j h; cases h
  | succ n ih =>
    intro i j h
    unfold P0.findCharAux at h
    split at h
    · cases h
    · rename_i x heq
      split at h
      · rename_i hxc
        simp only [Option.some.injEq] at h
        subst h
        refine ⟨Nat.le_refl _, by rw [heq, hxc], ?_⟩
        intro m h1 h2
        omega
      · rename_i hxc
        have hrec := ih (i + 1) j h
        refine ⟨by omega, hrec.2.1, ?_⟩
        intro m h1 h2
        rcases Nat.eq_or_lt_of_le h1 with rfl | hlt
        · rw [heq]
          intro hcon
          simp only [Option.some.injEq] at hcon
          exact hxc hcon
        · exact hrec.2.2 m (by omega) h2

lemma findCharFrom_spec (t : List Char) (c : Char) (i j : Nat)
    (h : P0.findCharFrom t c i = some j) :
    i ≤ j ∧ charAt t j = some c ∧ ∀ m, i ≤ m → m < j → charAt t m ≠ some c :=
  findCharAux_spec t c (t.length + 1 - i) i j h

lemma findCharFrom_min (t : List Char) (c : Char) (i j m : Nat)
    (h : P0.findCharFrom t c i = some j) (him : i ≤ m) (hm : charAt t m = some c) :
    j ≤ m := by
  by_contra hgt
  exact (findCharFrom_spec t c i j h).2.2 m him (by omega) hm

/-- Invariant of the part_000 scan loop from position `pos`: every reported region starts
at least 5 past `pos` (a tag of length ≥ 4, the opening backtick, then the offset just
after it), is non-empty, ends at a closing backtick, and has the opening backtick just
before its start; and the reported regions are strictly separated in list order. -/
lemma scanLoop_inv (t : List Char) :
    ∀ (fuel pos : Nat),
      (∀ r ∈ P0.scanLoop t pos fuel,
        pos + 5 ≤ r.start ∧ r.start < r.«end» ∧ charAt t r.«end» = some bq ∧
          charAt t (r.start - 1) = some bq) ∧
      (P0.scanLoop t pos fuel).Pairwise (fun a b => a.«end» < b.start) := by
  intro fuel
  induction fuel with
  | zero => intro pos; simp [P0.scanLoop]
  | succ n ih =>
    intro pos
    unfold P0.scanLoop
    cases hft : P0.findTagFrom t pos with
    | none => simp
    | some p =>
      obtain ⟨idx, len⟩ := p
      dsimp only
      have hspec := findTagFrom_spec t pos idx len hft
      have hlen : 4 ≤ len := matchTagLen_ge t idx len hspec.2
      have hrest := ih (idx + len)
      by_cases htick : charAt t (idx + len) = some bq
      · rw [if_pos htick]
        cases hfc : P0.findCharFrom t bq (idx + len + 2) with
        | none =>
          dsimp only
          refine ⟨fun r hr => ?_, hrest.2⟩
          have hf := hrest.1 r hr
          exact ⟨by omega, hf.2.1, hf.2.2.1, hf.2.2.2⟩
        | some e =>
          dsimp only
          have hcspec := findCharFrom_spec t bq (idx + len + 2) e hfc
          rw [if_pos (show 0 < e from by omega)]
          constructor
          · intro r hr
            rcases List.mem_cons.mp hr with rfl | hr2
            · dsimp only
              refine ⟨by omega, by omega, hcspec.2.1, ?_⟩
              show charAt t (idx + len + 1 - 1) = some bq
              simpa using htick
            · have hf := hrest.1 r hr2
              exact ⟨by omega, hf.2.1, hf.2.2.1, hf.2.2.2⟩
          · apply List.pairwise_cons.mpr
            refine ⟨?_, hrest.2⟩
            intro r hr2
            have hf := hrest.1 r hr2
            have hmin : e ≤ r.start - 1 :=
              findCharFrom_min t bq (idx + len + 2) e (r.start - 1) hfc (by omega)
                hf.2.2.2
            show e < r.start
            omega
      · rw [if_neg htick]
        refine ⟨fun r hr => ?_, hrest.2⟩
        have hf := hrest.1 r hr
        exact ⟨by omega, hf.2.1, hf.2.2.1, hf.2.2.2⟩

lemma pairwise_strengthen {β : Type} {R S : β → β → Prop} {P : β → Prop} :
    ∀ {l : List β}, l.Pairwise R → (∀ x ∈ l, P x) →
      (∀ x y, P x → P y → R x y → S x y) → l.Pairwise S := by
  intro l hl
  induction hl with
  | nil => intro _ _; exact List.Pairwise.nil
  | cons hhead _htail ih =>
    intro hp himp
    refine List.Pairwise.cons ?_ (ih (fun x hx => hp x (List.mem_cons_of_mem _ hx)) himp)
    intro y hy
    exact himp _ y (hp _ (List.mem_cons_self _ _)) (hp y (List.mem_cons_of_mem _ hy))
      (hhead y hy)

/-- C5 (amended): for every input text, the part_000 scanner's output is well-formed:
every span satisfies `start < end ≤ length` and ends at a closing backtick (so an opening
delimiter with no matching close before end of text contributes no span), and the span
list is strictly ascending by `start` and pairwise non-overlapping. -/
theorem c5_amended (t : List Char) :
    (∀ r ∈ P0.getGlslxRegions t,
      r.start < r.«end» ∧ r.«end» ≤ t.length ∧ charAt t r.«end» = some bq) ∧
    (P0.getGlslxRegions t).Pairwise
      (fun a b => a.start < b.start ∧ a.«end» ≤ b.start) := by
  have h := scanLoop_inv t (t.length + 1) 0
  constructor
  · intro r hr
    have hf := h.1 r hr
    have hlt : r.«end» < t.length := by
      by_contra hge
      have hnone : charAt t r.«end» = none := by
        simp only [charAt, List.get?_eq_none]
        omega
      have := hf.2.2.1
      rw [hnone] at this
      cases this
    exact ⟨hf.2.1, by omega, hf.2.2.1⟩
  · refine pairwise_strengthen h.2 (fun r hr => (h.1 r hr).2.1) ?_
    intro x y hx _hy hxy
    exact ⟨by omega, by omega⟩

/-- C5 counterexample: the part_001 scanner variant, also cited by the claim, returns the
empty span `⟨5, 5⟩` on the input `glsl``` (tag followed by two adjacent backticks),
violating `start < end`. -/
theorem c5_counterexample :
    P1.getGlslxRegions "glsl``".toList = [⟨5, 5⟩] ∧
    ¬(∀ r ∈ P1.getGlslxRegions "glsl``".toList, r.start < r.«end») := by
  refine ⟨by decide, by decide⟩
